import Mathlib

/-!
# Verification of the flight-price-tracker hybrid ranking engine

Shallow embedding of `src/backend/routes/prices.js` (the `/hybrid` and
`/advanced` search routes) together with the data model from
`src/backend/models/Flight.js` and `src/backend/models/PriceHistory.js`.

JS numbers are modelled as `ℚ` (the claims under study are about exact
formulas, guards and ordering, not rounding). The transcendental
functions `Math.log` and `Math.sqrt` are passed in as parameters
`log sqrt : ℚ → ℚ` so that every definition stays computable; theorems
assume only the properties of these functions they actually need.
Strings are processed at the character level; `Char.toLower`-style
lowering is modelled on the ASCII range, which is what the flight data
(IATA codes, airline names, cabin classes) uses.
-/

namespace FlightTracker

/-! ## Character-level text processing

`tokenize = (s) => (s || '').replace(/[^a-z0-9\s-]/g, ' ').split(/\s+/).filter(Boolean)`
(prices.js line 360), applied in the route to strings that were first
`.toLowerCase()`d (lines 348-357). -/

/-- JS `String.prototype.toLowerCase` restricted to ASCII: uppercase
letters `A`-`Z` are shifted to lowercase, all other characters kept. -/
def lowerChar (c : Char) : Char :=
  if 'A' ≤ c ∧ c ≤ 'Z' then Char.ofNat (c.toNat + 32) else c

/-- Characters matched by the regex class `\s` (ASCII part). -/
def isWs (c : Char) : Bool :=
  c = ' ' || c = '\t' || c = '\n' || c = '\r' || c = '\x0b' || c = '\x0c'

/-- Characters inside the class `[a-z0-9\s-]` of the tokenizer regex. -/
def keepChar (c : Char) : Bool :=
  ('a' ≤ c && c ≤ 'z') || ('0' ≤ c && c ≤ '9') || isWs c || c = '-'

/-- The step `replace(/[^a-z0-9\s-]/g, ' ')` acting on one character. -/
def replaceBad (c : Char) : Char :=
  if keepChar c then c else ' '

/-- A token is a list of characters. -/
abbrev Token := List Char

/-- Split at every character satisfying `p`, producing possibly empty
pieces (JS `split(/\s+/)` collapses runs, but after the `filter(Boolean)`
below the two give the same token list). -/
def splitBy (p : Char → Bool) : List Char → List Token
  | [] => [[]]
  | c :: cs =>
    if p c then [] :: splitBy p cs
    else
      match splitBy p cs with
      | [] => [[c]]
      | w :: ws => (c :: w) :: ws

/-- prices.js line 360:
`(s || '').replace(/[^a-z0-9\s-]/g, ' ').split(/\s+/).filter(Boolean)`. -/
def tokenize (s : List Char) : List Token :=
  (splitBy isWs (s.map replaceBad)).filter (· ≠ [])

/-- The Tokenizer component as exercised by the route: every string fed
to `tokenize` was first lowercased (`textOf` line 354, `q` line 357). -/
def tokenizerComponent (s : List Char) : List Token :=
  tokenize (s.map lowerChar)

/-- Convert a Lean string literal to the character-list representation. -/
def str (s : String) : List Char := s.data

/-! ## Data model

`Flight.js`: route.from/route.to (uppercase codes), airline, flightDate,
aircraft, class, isActive. `PriceHistory.js`: flightId, price, timestamp.
A `Candidate` is a flight after the `$lookup` stage of the `/hybrid`
pipeline: the flight joined with its price observations in storage
order (prices.js lines 300-319). -/

structure PriceObs where
  price : ℚ
  timestamp : ℤ
  deriving Repr, DecidableEq

structure Flight where
  airline : List Char
  routeFrom : List Char
  routeTo : List Char
  aircraft : List Char
  fclass : List Char
  flightDate : ℤ
  isActive : Bool
  deriving Repr, DecidableEq

structure Candidate where
  flight : Flight
  /-- joined `prices` array, in storage order (the `$lookup` result). -/
  prices : List PriceObs
  deriving Repr, DecidableEq

/-- The field `latestPrice: { $arrayElemAt: ['$prices.price', -1] }`
(prices.js lines 312 and 532): the LAST element of the joined array in
storage order; missing (`none`) when the array is empty. -/
def latestPrice (c : Candidate) : Option ℚ :=
  (c.prices.map PriceObs.price).getLast?

/-- The spec's invariant, for comparison (spec §3): the latest value is
the price of the observation with the maximum capture timestamp.
Modelled from the spec: max-by-timestamp selection over the record's
observations. -/
def specLatestValue (c : Candidate) : Option ℚ :=
  (c.prices.foldl
    (fun acc o =>
      match acc with
      | none => some o
      | some m => if m.timestamp < o.timestamp then some o else some m)
    none).map PriceObs.price

/-! ## Price range filtering (`/hybrid`, prices.js lines 321-342)

Two stages act in sequence: a MongoDB `$match` on `latestPrice` pushed
into the aggregation pipeline (lines 321-332), then an in-memory
re-filter with `??`-coalescing to ±Infinity (lines 336-342). -/

/-- Mongo `$match` `{ latestPrice: { $gte: m } }` where the field may be
missing: a missing value never matches a numeric `$gte` (BSON type
bracketing — null/missing is not a number). -/
def mongoGte : Option ℚ → ℚ → Bool
  | none, _ => false
  | some x, m => decide (m ≤ x)

/-- Mongo `$match` `{ latestPrice: { $lte: m } }`; a missing value never
matches a numeric `$lte`. -/
def mongoLte : Option ℚ → ℚ → Bool
  | none, _ => false
  | some x, m => decide (x ≤ m)

/-- The `$match` stage built at lines 322-331: a `$gte` bound when
`minPrice` is given, a `$lte` bound when `maxPrice` is given. -/
def pricePipelinePass (minPrice maxPrice : Option ℚ) (c : Candidate) : Bool :=
  (match minPrice with
   | some m => mongoGte (latestPrice c) m
   | none => true)
  && (match maxPrice with
      | some m => mongoLte (latestPrice c) m
      | none => true)

/-- JS numbers extended with the two infinities used by the in-memory
filter and the price sort comparators. -/
inductive JsNum where
  | num : ℚ → JsNum
  | posInf : JsNum
  | negInf : JsNum
  deriving Repr, DecidableEq

/-- Comparison `<=` on JS numbers including ±Infinity. -/
def JsNum.le : JsNum → JsNum → Bool
  | negInf, _ => true
  | _, posInf => true
  | num a, num b => decide (a ≤ b)
  | posInf, _ => false
  | _, negInf => false

/-- The expression `d.latestPrice ?? dflt`: coalesce a missing latest price. -/
def jsCoalesce (v : Option ℚ) (dflt : JsNum) : JsNum :=
  match v with
  | some x => .num x
  | none => dflt

/-- Line 341:
`(d.latestPrice ?? Infinity) >= minP && (d.latestPrice ?? -Infinity) <= maxP`
with `minP = minPrice ? parseFloat(minPrice) : -Infinity` and
`maxP = maxPrice ? parseFloat(maxPrice) : Infinity` (lines 339-340). -/
def inMemoryPricePass (minPrice maxPrice : Option ℚ) (c : Candidate) : Bool :=
  JsNum.le (jsCoalesce minPrice .negInf) (jsCoalesce (latestPrice c) .posInf)
  && JsNum.le (jsCoalesce (latestPrice c) .negInf) (jsCoalesce maxPrice .posInf)

/-- Candidate price filtering of `/hybrid`: the pipeline `$match` stage
(pushed only `if (minPrice || maxPrice)`, line 322) followed by the
in-memory re-filter (guarded the same way, line 338). -/
def priceFiltered (minPrice maxPrice : Option ℚ) (cands : List Candidate) :
    List Candidate :=
  if minPrice.isSome || maxPrice.isSome then
    (cands.filter (pricePipelinePass minPrice maxPrice)).filter
      (inMemoryPricePass minPrice maxPrice)
  else cands

/-! ## Corpus construction (lines 348-362) -/

/-- Lines 348-354: `[airline, route.from, route.to, aircraft, class]`
joined with single spaces, then `.toLowerCase()`. -/
def textOf (c : Candidate) : List Char :=
  (c.flight.airline ++ [' '] ++ c.flight.routeFrom ++ [' '] ++ c.flight.routeTo
    ++ [' '] ++ c.flight.aircraft ++ [' '] ++ c.flight.fclass).map lowerChar

/-- JS `a || b` on strings: `b` when `a` is absent or empty. -/
def jsOrStr (a : Option (List Char)) (b : List Char) : List Char :=
  match a with
  | some s => if s = [] then b else s
  | none => b

/-- The fallback `[from, to, airline].filter(Boolean).join(' ')` (line 357). -/
def queryFallback (from_ to_ airline : Option (List Char)) : List Char :=
  List.intercalate [' ']
    (([from_, to_, airline].filterMap id).filter (· ≠ []))

/-- Line 357:
`q = (query || [from, to, airline].filter(Boolean).join(' ')).toLowerCase()`. -/
def queryText (query from_ to_ airline : Option (List Char)) : List Char :=
  (jsOrStr query (queryFallback from_ to_ airline)).map lowerChar

/-! ## Term statistics (lines 364-378) -/

/-- Document frequency (lines 366-373): the number of candidate
documents containing the term at least once; `df.get(t) || 0` makes an
absent term read as 0. -/
def df (docTokens : List (List Token)) (t : Token) : ℕ :=
  (docTokens.filter (fun d => decide (t ∈ d))).length

/-- Keep the first occurrence of each element (JS `Set`/`Map` insertion
order). -/
def firstDedup (l : List Token) : List Token :=
  go l []
where
  go : List Token → List Token → List Token
    | [], _ => []
    | t :: ts, seen => if t ∈ seen then go ts seen else t :: go ts (t :: seen)

/-- Line 397: `Array.from(new Set([...qTokens, ...vocab.keys()]))`.
The vocabulary keys are the document terms in first-seen order extended
with query-only terms (lines 365-374), so the set enumerates the query
tokens' first occurrences followed by the remaining document terms in
first-seen order. -/
def termsList (qTokens : List Token) (docTokens : List (List Token)) :
    List Token :=
  firstDedup (qTokens ++ docTokens.flatten)

/-- Line 376: `N = docTokens.length || 1`. -/
def Nval (docTokens : List (List Token)) : ℚ :=
  if docTokens.length = 0 then 1 else docTokens.length

/-- Line 377: `avgdl = docTokens.reduce((s,t)=>s+t.length,0) / N`. -/
def avgdl (docTokens : List (List Token)) : ℚ :=
  ((docTokens.map List.length).sum : ℕ) / Nval docTokens

/-! ## BM25 (lines 378-394) -/

/-- Line 379: `k1 = 1.5`. -/
def k1 : ℚ := 3/2

/-- Line 379: `b = 0.75`; named `bParam` because `b` is used as a
variable throughout. -/
def bParam : ℚ := 3/4

/-- Line 378:
`idf = (t) => Math.log(1 + (N - (df.get(t)||0) + 0.5) / ((df.get(t)||0) + 0.5))`. -/
def idf (log : ℚ → ℚ) (docTokens : List (List Token)) (t : Token) : ℚ :=
  log (1 + (Nval docTokens - df docTokens t + 1/2) / (df docTokens t + 1/2))

/-- Raw term frequency inside one token list. -/
def termFreq (tokens : List Token) (t : Token) : ℕ :=
  tokens.count t

/-- Line 385: `dl = tokens.length || 1`. -/
def docLen (tokens : List Token) : ℚ :=
  if tokens.length = 0 then 1 else tokens.length

/-- BM25 of one document (lines 382-394): fold over the query tokens
(duplicates included, as `qTokens.forEach`), skipping terms with zero
frequency (`if (!f) return`). -/
def bm25Doc (log : ℚ → ℚ) (docTokens : List (List Token))
    (qTokens : List Token) (tokens : List Token) : ℚ :=
  qTokens.foldl
    (fun score t =>
      let f : ℚ := termFreq tokens t
      if f = 0 then score
      else score + idf log docTokens t *
        ((f * (k1 + 1)) /
          (f + k1 * (1 - bParam + bParam * (docLen tokens / avgdl docTokens)))))
    0

/-- Line 382: `bm25 = docTokens.map(...)`. -/
def bm25List (log : ℚ → ℚ) (docTokens : List (List Token))
    (qTokens : List Token) : List ℚ :=
  docTokens.map (bm25Doc log docTokens qTokens)

/-- Line 361: `docTokens = docs.map(tokenize)` over the filtered
candidates' lowercased document texts. -/
def docTokensOf (cands : List Candidate) : List (List Token) :=
  cands.map (fun c => tokenize (textOf c))

/-- Line 362: `qTokens = tokenize(q)`. -/
def qTokensOf (query from_ to_ airline : Option (List Char)) : List Token :=
  tokenize (queryText query from_ to_ airline)

/-! ## TF-IDF vectors and cosine similarity (lines 396-410) -/

/-- Line 398: `Math.log((N + 1) / ((df.get(t) || 0) + 1)) + 1`. -/
def idfTf (log : ℚ → ℚ) (docTokens : List (List Token)) (t : Token) : ℚ :=
  log ((Nval docTokens + 1) / (df docTokens t + 1)) + 1

/-- Lines 399-403: the TF-IDF vector of a token list, aligned to the
term-universe ordering. -/
def vecOf (log : ℚ → ℚ) (docTokens : List (List Token))
    (terms : List Token) (tokens : List Token) : List ℚ :=
  terms.map (fun t => (termFreq tokens t : ℚ) * idfTf log docTokens t)

/-- Line 404: `dot = (a,b)=>a.reduce((s,v,i)=>s+v*(b[i]||0),0)`; the two
vectors always have the length of the term universe, so the `||0`
out-of-range guard never fires and zipWith is exact. -/
def dot (a b : List ℚ) : ℚ :=
  (a.zipWith (· * ·) b).sum

/-- Line 405: `norm = (a)=>Math.sqrt(dot(a,a))||1e-12`; `0` is falsy, so
a zero square root is replaced by the epsilon floor. -/
def normV (sqrt : ℚ → ℚ) (a : List ℚ) : ℚ :=
  let n := sqrt (dot a a)
  if n = 0 then 1 / 1000000000000 else n

/-- Lines 406-410: cosine similarity of each document against the query
vector. -/
def cosList (log sqrt : ℚ → ℚ) (docTokens : List (List Token))
    (qTokens : List Token) (terms : List Token) : List ℚ :=
  let qv := vecOf log docTokens terms qTokens
  docTokens.map (fun toks =>
    let dv := vecOf log docTokens terms toks
    dot qv dv / (normV sqrt qv * normV sqrt dv))

/-! ## Min-max normalization and fusion (lines 413-423) -/

/-- Lines 413-419: min-max scaling with the `mx - mn < 1e-12` zero-range
guard; the empty array is returned unchanged. -/
def normalize (arr : List ℚ) : List ℚ :=
  match arr with
  | [] => []
  | x :: xs =>
    let mn := xs.foldl min x
    let mx := xs.foldl max x
    if mx - mn < 1 / 1000000000000 then arr.map (fun _ => 0)
    else arr.map (fun v => (v - mn) / (mx - mn))

/-- Line 345: `alphaNum = Math.max(0, Math.min(1, Number(alpha)))`. -/
def alphaNum (alpha : ℚ) : ℚ :=
  max 0 (min 1 alpha)

/-- Line 251: destructuring default `alpha = 0.5`. -/
def defaultAlpha : ℚ := 1/2

/-- Line 423: `hybrid = bm25N.map((b,i)=> alphaNum*b + (1-alphaNum)*cosN[i])`
(the two normalized lists have equal length). -/
def fuseScores (alpha : ℚ) (bm25N cosN : List ℚ) : List ℚ :=
  bm25N.zipWith (fun bN cN => alpha * bN + (1 - alpha) * cN) cosN

/-! ## Scored candidates, sorting and pagination (lines 426-471) -/

/-- A candidate together with its `_scores` block (lines 426-434). -/
structure ScoredCandidate where
  cand : Candidate
  bm25 : ℚ
  cosine : ℚ
  hybrid : ℚ
  alpha : ℚ
  deriving Repr, DecidableEq

/-- Lines 426-434: attach `bm25N[i]`, `cosN[i]`, `hybrid[i]` and the
clamped alpha to each filtered candidate (all four lists have the
filtered list's length). -/
def attachScores (filtered : List Candidate) (bm25N cosN hyb : List ℚ)
    (alpha : ℚ) : List ScoredCandidate :=
  match filtered, bm25N, cosN, hyb with
  | c :: cs', x :: xs, y :: ys, z :: zs =>
    ⟨c, x, y, z, alpha⟩ :: attachScores cs' xs ys zs alpha
  | _, _, _, _ => []

/-- Line 453, `case 'relevance'` comparator
`(a,b)=>b._scores.hybrid - a._scores.hybrid`, read as the stable-sort
relation "`a` may stay before `b`", i.e. `b.hybrid ≤ a.hybrid`. -/
def relevanceLe (a b : ScoredCandidate) : Bool :=
  decide (b.hybrid ≤ a.hybrid)

/-- Line 440 comparator `(a,b)=>(a.latestPrice??Infinity)-(b.latestPrice??Infinity)`. -/
def priceAscLe (a b : ScoredCandidate) : Bool :=
  JsNum.le (jsCoalesce (latestPrice a.cand) .posInf)
    (jsCoalesce (latestPrice b.cand) .posInf)

/-- Line 443 comparator `(a,b)=>(b.latestPrice??-Infinity)-(a.latestPrice??-Infinity)`. -/
def priceDescLe (a b : ScoredCandidate) : Bool :=
  JsNum.le (jsCoalesce (latestPrice b.cand) .negInf)
    (jsCoalesce (latestPrice a.cand) .negInf)

/-- Line 446 comparator: flight date ascending. -/
def dateAscLe (a b : ScoredCandidate) : Bool :=
  decide (a.cand.flight.flightDate ≤ b.cand.flight.flightDate)

/-- Line 449 comparator: flight date descending. -/
def dateDescLe (a b : ScoredCandidate) : Bool :=
  decide (b.cand.flight.flightDate ≤ a.cand.flight.flightDate)

/-- The `'relevance'` branch of the sort switch: JS `Array.prototype.sort`
is stable, modelled by the stable `List.mergeSort`. -/
def hybridRelevanceSort (l : List ScoredCandidate) : List ScoredCandidate :=
  l.mergeSort relevanceLe

/-- The whole `switch (sortBy)` of lines 438-455. -/
def sortCandidates (sortBy : List Char) (l : List ScoredCandidate) :
    List ScoredCandidate :=
  if sortBy = str "price_asc" then l.mergeSort priceAscLe
  else if sortBy = str "price_desc" then l.mergeSort priceDescLe
  else if sortBy = str "date_asc" then l.mergeSort dateAscLe
  else if sortBy = str "date_desc" then l.mergeSort dateDescLe
  else hybridRelevanceSort l

/-- Response pagination block (lines 457-471). -/
structure Pagination where
  currentPage : ℕ
  totalPages : ℤ
  totalResults : ℕ
  hasNext : Bool
  hasPrev : Bool
  deriving Repr, DecidableEq

/-- Line 458: `totalPages = Math.ceil(total / limit)`, an exact rational
ceiling. -/
def totalPagesOf (total limitN : ℕ) : ℤ :=
  ⌈(total : ℚ) / (limitN : ℚ)⌉

/-- Lines 457-471: `sorted.slice((page-1)*limit, page*limit)` plus the
pagination metadata (`hasNext: pageNum < totalPages`,
`hasPrev: pageNum > 1`). -/
def paginate {α : Type} (l : List α) (pageN limitN : ℕ) :
    List α × Pagination :=
  let total := l.length
  let tp := totalPagesOf total limitN
  ((l.drop ((pageN - 1) * limitN)).take limitN,
   { currentPage := pageN
     totalPages := tp
     totalResults := total
     hasNext := decide ((pageN : ℤ) < tp)
     hasPrev := decide (1 < pageN) })

/-! ## The `/hybrid` route (lines 237-477) -/

/-- The error taxonomy of spec §7; the route's `catch` only converts
thrown exceptions, no `InvalidFilter` is ever constructed by the code. -/
inductive RankError where
  | invalidFilter : List Char → RankError
  | upstreamFetchFailure : RankError
  deriving Repr, DecidableEq

/-- The `/hybrid` response body (lines 462-473). -/
structure HybridResponse where
  data : List ScoredCandidate
  pagination : Pagination
  alpha : ℚ
  deriving Repr, DecidableEq

/-- The `/hybrid` handler from the aggregation result onward
(lines 300-473): price filtering, corpus construction, BM25, cosine,
normalization, fusion, sort switch and pagination. `cands` is the
post-`$lookup` candidate list delivered by the store; `log` and `sqrt`
stand for `Math.log` and `Math.sqrt`. The handler never rejects a
request: the alpha parameter is clamped (line 345), not validated. -/
def hybridRank (log sqrt : ℚ → ℚ)
    (query from_ to_ airline : Option (List Char))
    (minPrice maxPrice : Option ℚ) (sortBy : List Char)
    (limitN pageN : ℕ) (alpha : ℚ)
    (cands : List Candidate) : Except RankError HybridResponse :=
  let filtered := priceFiltered minPrice maxPrice cands
  let aN := alphaNum alpha
  let docTokens := docTokensOf filtered
  let qTokens := qTokensOf query from_ to_ airline
  let terms := termsList qTokens docTokens
  let bm := bm25List log docTokens qTokens
  let cs := cosList log sqrt docTokens qTokens terms
  let bmN := normalize bm
  let csN := normalize cs
  let hyb := fuseScores aN bmN csN
  let withScores := attachScores filtered bmN csN hyb aN
  let sorted := sortCandidates sortBy withScores
  let page := paginate sorted pageN limitN
  .ok { data := page.1, pagination := page.2, alpha := aN }

/-! ## The `/advanced` route sort stage (lines 561-618) -/

/-- A candidate with the `relevanceScore` field added by the `$addFields`
stage of `/advanced` (lines 561-595). -/
structure AdvCandidate where
  cand : Candidate
  relevanceScore : ℚ
  deriving Repr, DecidableEq

/-- Mongo ascending comparison on a possibly missing numeric field:
missing sorts before every number. -/
def mongoValLe (a b : Option ℚ) : Bool :=
  match a, b with
  | none, _ => true
  | some _, none => false
  | some x, some y => decide (x ≤ y)

/-- Line 614, `$sort: { relevanceScore: -1, latestPrice: 1 }`: the Mongo
lexicographic order — relevance score descending, then latest price
ascending. -/
def advRelevanceLe (a b : AdvCandidate) : Bool :=
  if a.relevanceScore = b.relevanceScore then
    mongoValLe (latestPrice a.cand) (latestPrice b.cand)
  else decide (b.relevanceScore < a.relevanceScore)

/-- The `/advanced` relevance sort: the documents ordered by the Mongo
sort specification of line 614. -/
def advancedRelevanceSort (l : List AdvCandidate) : List AdvCandidate :=
  l.mergeSort advRelevanceLe

/-! ## Concrete candidates used by the witnesses and counterexamples -/

/-- A flight whose stored price array is NOT in capture-timestamp order:
price 100 captured at time 2 was stored first, price 200 captured at
time 1 was appended later (e.g. a backfilled `POST /api/prices` entry). -/
def outOfOrderCandidate : Candidate :=
  { flight :=
      { airline := str "Emirates", routeFrom := str "DXB", routeTo := str "LHR"
        aircraft := str "A380", fclass := str "Economy"
        flightDate := 0, isActive := true }
    prices := [⟨100, 2⟩, ⟨200, 1⟩] }

/-- A candidate with no price observations. -/
def emptyPriceCandidate : Candidate :=
  { flight :=
      { airline := str "Qatar", routeFrom := str "DOH", routeTo := str "JFK"
        aircraft := str "", fclass := str "Economy"
        flightDate := 0, isActive := true }
    prices := [] }

/-- A candidate with one observation of value 100. -/
def pricedCandidate : Candidate :=
  { flight :=
      { airline := str "Emirates", routeFrom := str "DXB", routeTo := str "LHR"
        aircraft := str "", fclass := str "Economy"
        flightDate := 0, isActive := true }
    prices := [⟨100, 1⟩] }

/-! ## C1: latest value vs. storage order -/

/-- C1: the claim states that a Candidate's latest value is the
Observation with the maximum capture timestamp. The code instead takes
`$arrayElemAt: ['$prices.price', -1]` — the last element in storage
order. On a candidate whose array is not timestamp-ordered the two
disagree: the code reports 200 (stored last, captured at time 1) while
the maximum-timestamp observation has value 100 (captured at time 2). -/
theorem c1_latestPrice_storage_order_bug :
    latestPrice outOfOrderCandidate = some 200 ∧
    specLatestValue outOfOrderCandidate = some 100 ∧
    latestPrice outOfOrderCandidate ≠ specLatestValue outOfOrderCandidate := by
  refine ⟨rfl, rfl, ?_⟩
  decide

/-! ## C2: price bounds exclude observation-less candidates -/

/-- C2: whenever `minPrice` or `maxPrice` is specified, a candidate with
zero observations (hence a missing `latestPrice`) is excluded from the
filtered candidate list: the aggregation `$match` on `latestPrice`
never matches a missing field against a numeric `$gte`/`$lte` bound. -/
theorem c2_price_bounds_exclude_empty
    (minPrice maxPrice : Option ℚ) (cands : List Candidate)
    (h : minPrice.isSome ∨ maxPrice.isSome) :
    ∀ c ∈ priceFiltered minPrice maxPrice cands, c.prices ≠ [] := by
  intro c hc hnil
  have hguard : (minPrice.isSome || maxPrice.isSome) = true := by
    rcases h with h | h <;> simp [h]
  rw [priceFiltered, if_pos hguard] at hc
  have hpass : pricePipelinePass minPrice maxPrice c = true :=
    (List.mem_filter.mp (List.mem_filter.mp hc).1).2
  have hlp : latestPrice c = none := by
    simp [latestPrice, hnil]
  rcases h with h | h <;>
    cases minPrice <;> cases maxPrice <;>
      simp_all [pricePipelinePass, mongoGte, mongoLte]

/-- Witness for C2 at a concrete input: with `minPrice = 50` set, the
filtered list over a two-candidate set keeps only the priced candidate,
whose observation list is indeed nonempty. -/
theorem c2_witness : pricedCandidate.prices ≠ [] :=
  c2_price_bounds_exclude_empty (some 50) none
    [emptyPriceCandidate, pricedCandidate] (Or.inl rfl)
    pricedCandidate (by decide)

/-! ## C5: score fusion is a convex combination -/

lemma fuseScores_getD (alpha : ℚ) :
    ∀ (bs cs : List ℚ), bs.length = cs.length → ∀ i,
      (fuseScores alpha bs cs).getD i 0
        = alpha * bs.getD i 0 + (1 - alpha) * cs.getD i 0
  | [], [], _, i => by simp [fuseScores]
  | [], _ :: _, h, _ => by simp at h
  | _ :: _, [], h, _ => by simp at h
  | b :: bs, c :: cs, h, 0 => by simp [fuseScores]
  | b :: bs, c :: cs, h, i + 1 => by
    have ih := fuseScores_getD alpha bs cs (by simpa using h) i
    simpa [fuseScores] using ih

lemma fuseScores_one : ∀ (bs cs : List ℚ), bs.length = cs.length →
    fuseScores 1 bs cs = bs
  | [], [], _ => rfl
  | [], _ :: _, h => by simp at h
  | _ :: _, [], h => by simp at h
  | b :: bs, c :: cs, h => by
    have ih := fuseScores_one bs cs (by simpa using h)
    simp [fuseScores] at ih ⊢
    exact ih

lemma fuseScores_zero : ∀ (bs cs : List ℚ), bs.length = cs.length →
    fuseScores 0 bs cs = cs
  | [], [], _ => rfl
  | [], _ :: _, h => by simp at h
  | _ :: _, [], h => by simp at h
  | b :: bs, c :: cs, h => by
    have ih := fuseScores_zero bs cs (by simpa using h)
    simp [fuseScores] at ih ⊢
    exact ih

/-- C5: for every α in [0,1] the fused score is the convex combination
`α * bm25Norm + (1-α) * cosineNorm` (elementwise over the two equal-length
normalized score lists), the destructuring default is α = 0.5, and at
α = 1 the fused list equals the normalized-BM25 list while at α = 0 it
equals the normalized-cosine list — so the endpoint rankings coincide
with the pure rankings, pairwise-comparison for pairwise-comparison. -/
theorem c5_fusion_convex_combination (alpha : ℚ) (bm25N cosN : List ℚ)
    (hlen : bm25N.length = cosN.length)
    (h0 : 0 ≤ alpha) (h1 : alpha ≤ 1) :
    (∀ i, (fuseScores alpha bm25N cosN).getD i 0
        = alpha * bm25N.getD i 0 + (1 - alpha) * cosN.getD i 0) ∧
    fuseScores 1 bm25N cosN = bm25N ∧
    fuseScores 0 bm25N cosN = cosN ∧
    (∀ i j, (fuseScores 1 bm25N cosN).getD i 0 < (fuseScores 1 bm25N cosN).getD j 0
        ↔ bm25N.getD i 0 < bm25N.getD j 0) ∧
    (∀ i j, (fuseScores 0 bm25N cosN).getD i 0 < (fuseScores 0 bm25N cosN).getD j 0
        ↔ cosN.getD i 0 < cosN.getD j 0) ∧
    defaultAlpha = 1/2 := by
  refine ⟨fuseScores_getD alpha bm25N cosN hlen,
    fuseScores_one bm25N cosN hlen, fuseScores_zero bm25N cosN hlen,
    ?_, ?_, rfl⟩
  · intro i j
    rw [fuseScores_one bm25N cosN hlen]
  · intro i j
    rw [fuseScores_zero bm25N cosN hlen]

/-- Witness for C5 at α = 1/2 on two concrete score lists. -/
theorem c5_witness :
    (fuseScores (1/2) [1, 2] [3, 0]).getD 0 0
      = (1/2) * ([1, 2] : List ℚ).getD 0 0
        + (1 - 1/2) * ([3, 0] : List ℚ).getD 0 0 :=
  (c5_fusion_convex_combination (1/2) [1, 2] [3, 0] rfl
    (by norm_num) (by norm_num)).1 0

/-! ## C8: normalization is total and zero on equal scores -/

lemma foldl_min_le_self : ∀ (xs : List ℚ) (a : ℚ), xs.foldl min a ≤ a
  | [], a => le_refl a
  | x :: xs, a => le_trans (foldl_min_le_self xs (min a x)) (min_le_left a x)

lemma foldl_min_le_mem : ∀ (xs : List ℚ) (a w : ℚ), w ∈ xs → xs.foldl min a ≤ w
  | x :: xs, a, w, h => by
    rcases List.mem_cons.mp h with rfl | h
    · exact le_trans (foldl_min_le_self xs (min a w)) (min_le_right a w)
    · exact foldl_min_le_mem xs (min a x) w h

lemma self_le_foldl_max : ∀ (xs : List ℚ) (a : ℚ), a ≤ xs.foldl max a
  | [], a => le_refl a
  | x :: xs, a => le_trans (le_max_left a x) (self_le_foldl_max xs (max a x))

lemma mem_le_foldl_max : ∀ (xs : List ℚ) (a w : ℚ), w ∈ xs → w ≤ xs.foldl max a
  | x :: xs, a, w, h => by
    rcases List.mem_cons.mp h with rfl | h
    · exact le_trans (le_max_right a w) (self_le_foldl_max xs (max a w))
    · exact mem_le_foldl_max xs (max a x) w h

lemma foldl_min_const : ∀ (xs : List ℚ) (a : ℚ), (∀ y ∈ xs, y = a) →
    xs.foldl min a = a
  | [], _, _ => rfl
  | x :: xs, a, h => by
    have hx : x = a := h x (List.mem_cons_self x xs)
    rw [List.foldl_cons, hx, min_self]
    exact foldl_min_const xs a (fun y hy => h y (List.mem_cons_of_mem _ hy))

lemma foldl_max_const : ∀ (xs : List ℚ) (a : ℚ), (∀ y ∈ xs, y = a) →
    xs.foldl max a = a
  | [], _, _ => rfl
  | x :: xs, a, h => by
    have hx : x = a := h x (List.mem_cons_self x xs)
    rw [List.foldl_cons, hx, max_self]
    exact foldl_max_const xs a (fun y hy => h y (List.mem_cons_of_mem _ hy))

/-- On a list whose elements are all equal, `normalize` takes the
zero-range guard branch and maps everything to 0. -/
lemma normalize_of_all_eq (arr : List ℚ)
    (h : ∀ x ∈ arr, ∀ y ∈ arr, x = y) :
    normalize arr = List.replicate arr.length 0 := by
  cases arr with
  | nil => rfl
  | cons x xs =>
    have hx : ∀ y ∈ xs, y = x :=
      fun y hy => h y (List.mem_cons_of_mem _ hy) x (List.mem_cons_self x xs)
    have hmn : xs.foldl min x = x := foldl_min_const xs x hx
    have hmx : xs.foldl max x = x := foldl_max_const xs x hx
    simp only [normalize, hmn, hmx, sub_self]
    rw [if_pos (by norm_num)]
    exact List.map_const' (x :: xs) (0 : ℚ)

/-- C8: normalization is total and NaN-free: on any list in which all
raw scores are equal — the empty and singleton lists included — every
normalized score is 0, and in the branch that does divide, the range
`mx - mn` is strictly positive, so every output lies in [0,1] (no NaN
from a zero-range division). -/
theorem c8_normalize_total_equal_zero (arr : List ℚ) :
    ((∀ x ∈ arr, ∀ y ∈ arr, x = y) →
        normalize arr = List.replicate arr.length 0) ∧
    (∀ v ∈ normalize arr, 0 ≤ v ∧ v ≤ 1) := by
  constructor
  · exact normalize_of_all_eq arr
  · intro v hv
    cases arr with
    | nil => simp [normalize] at hv
    | cons x xs =>
      simp only [normalize] at hv
      by_cases hguard : xs.foldl max x - xs.foldl min x < 1 / 1000000000000
      · rw [if_pos hguard] at hv
        rcases List.mem_map.mp hv with ⟨w, _, rfl⟩
        norm_num
      · rw [if_neg hguard] at hv
        rcases List.mem_map.mp hv with ⟨w, hw, rfl⟩
        have hpos : 0 < xs.foldl max x - xs.foldl min x :=
          lt_of_lt_of_le (by norm_num) (not_lt.mp hguard)
        have hmn : xs.foldl min x ≤ w := by
          rcases List.mem_cons.mp hw with rfl | hw'
          · exact foldl_min_le_self xs w
          · exact foldl_min_le_mem xs x w hw'
        have hmx : w ≤ xs.foldl max x := by
          rcases List.mem_cons.mp hw with rfl | hw'
          · exact self_le_foldl_max xs w
          · exact mem_le_foldl_max xs x w hw'
        constructor
        · exact div_nonneg (sub_nonneg.mpr hmn) hpos.le
        · rw [div_le_one hpos]
          exact sub_le_sub_right hmx _

/-- Witness for C8 on the constant list [5, 5]. -/
theorem c8_witness :
    normalize [(5 : ℚ), 5] = List.replicate 2 0 :=
  (c8_normalize_total_equal_zero [5, 5]).1 (by decide)

/-! ## C9: pagination contract -/

lemma ceil_div_nat (a b : ℕ) (hb : 1 ≤ b) :
    ⌈(a:ℚ)/(b:ℚ)⌉ = ((a + b - 1) / b : ℕ) := by
  have hb0 : (0:ℚ) < b := by exact_mod_cast hb
  obtain ⟨n, hn⟩ : ∃ n, (a + b - 1) / b = n := ⟨_, rfl⟩
  have h1 : b * n + (a + b - 1) % b = a + b - 1 := by
    rw [← hn]; exact Nat.div_add_mod _ _
  have h2 : (a + b - 1) % b < b := Nat.mod_lt _ (by omega)
  have hnat1 : a ≤ b * n := by omega
  have hnat2 : b * n + 1 ≤ a + b := by omega
  rw [hn]
  have hq1 : (a:ℚ) ≤ (b:ℚ) * n := by exact_mod_cast hnat1
  have hq2 : (b:ℚ) * n + 1 ≤ (a:ℚ) + b := by exact_mod_cast hnat2
  refine le_antisymm ?_ ?_
  · apply Int.ceil_le.mpr
    rw [div_le_iff₀ hb0]
    push_cast
    linarith
  · have hlt : (n : ℤ) - 1 < ⌈(a:ℚ)/(b:ℚ)⌉ := by
      apply Int.lt_ceil.mpr
      rw [lt_div_iff₀ hb0]
      push_cast
      linarith
    omega

/-- The ceiling page count covers the whole list: `len ≤ limit * totalPages`. -/
lemma length_le_limit_mul_ceil (a b : ℕ) (hb : 1 ≤ b) :
    a ≤ b * ((a + b - 1) / b) := by
  have h1 : b * ((a + b - 1) / b) + (a + b - 1) % b = a + b - 1 :=
    Nat.div_add_mod _ _
  have h2 : (a + b - 1) % b < b := Nat.mod_lt _ (by omega)
  omega

/-- C9: pagination is 1-indexed with fixed page size: the reported
`totalPages` is exactly `⌈totalItems / pageSize⌉`, `hasNext` holds iff
the requested page is strictly below `totalPages`, `hasPrev` iff it is
strictly above 1, the reported total is the list length, and requesting
a page strictly beyond the last valid page yields an empty item list
(with the same totals), not an error. -/
theorem c9_pagination_contract {α : Type} (l : List α) (pageN limitN : ℕ)
    (hp : 1 ≤ pageN) (hl : 1 ≤ limitN) :
    (paginate l pageN limitN).2.totalPages
      = ((l.length + limitN - 1) / limitN : ℕ) ∧
    ((paginate l pageN limitN).2.hasNext = true
      ↔ (pageN : ℤ) < (paginate l pageN limitN).2.totalPages) ∧
    ((paginate l pageN limitN).2.hasPrev = true ↔ 1 < pageN) ∧
    (paginate l pageN limitN).2.totalResults = l.length ∧
    ((paginate l pageN limitN).2.totalPages < (pageN : ℤ) →
      (paginate l pageN limitN).1 = []) := by
  refine ⟨ceil_div_nat l.length limitN hl, by simp [paginate],
    by simp [paginate], rfl, ?_⟩
  intro hbeyond
  have htp : (paginate l pageN limitN).2.totalPages
      = ((l.length + limitN - 1) / limitN : ℕ) :=
    ceil_div_nat l.length limitN hl
  rw [htp] at hbeyond
  have hlt : (l.length + limitN - 1) / limitN < pageN := by exact_mod_cast hbeyond
  have hcov : l.length ≤ limitN * ((l.length + limitN - 1) / limitN) :=
    length_le_limit_mul_ceil l.length limitN hl
  have hdrop : l.length ≤ (pageN - 1) * limitN := by
    have : limitN * ((l.length + limitN - 1) / limitN) ≤ (pageN - 1) * limitN := by
      rw [mul_comm]
      exact Nat.mul_le_mul_right _ (by omega)
    omega
  show ((l.drop ((pageN - 1) * limitN)).take limitN) = []
  rw [List.drop_eq_nil_of_le hdrop]
  simp

/-- Witness for C9: page 5 of a 3-element list at page size 2 is empty. -/
theorem c9_witness :
    (paginate ([0, 1, 2] : List ℕ) 5 2).1 = [] := by
  have h := c9_pagination_contract ([0, 1, 2] : List ℕ) 5 2
    (by norm_num) (by norm_num)
  exact h.2.2.2.2 (by rw [h.1]; decide)

/-! ## C6: the Tokenizer -/

lemma toNat_ofNat_valid (n : ℕ) (h : n < 55296) : (Char.ofNat n).toNat = n := by
  have hv : n.isValidChar := Or.inl h
  rw [Char.ofNat, dif_pos hv]
  simp [Char.ofNatAux, Char.toNat, UInt32.toNat]

lemma le_iff_toNat (a b : Char) : a ≤ b ↔ a.toNat ≤ b.toNat := by
  rw [Char.le_def, UInt32.le_def, BitVec.le_def]
  rfl

lemma lowerChar_idem (c : Char) : lowerChar (lowerChar c) = lowerChar c := by
  by_cases h : 'A' ≤ c ∧ c ≤ 'Z'
  · have h65 : ('A').toNat ≤ c.toNat := (le_iff_toNat 'A' c).mp h.1
    have h90 : c.toNat ≤ ('Z').toNat := (le_iff_toNat c 'Z').mp h.2
    have hA : ('A').toNat = 65 := by decide
    have hZ : ('Z').toNat = 90 := by decide
    have hlow : lowerChar c = Char.ofNat (c.toNat + 32) := by
      rw [lowerChar, if_pos h]
    rw [hlow, lowerChar, if_neg]
    intro hcon
    have h2 := (le_iff_toNat _ 'Z').mp hcon.2
    rw [toNat_ofNat_valid _ (by omega)] at h2
    omega
  · have hlc : lowerChar c = c := by rw [lowerChar, if_neg h]
    rw [hlc]
    exact hlc

lemma mem_splitBy (p : Char → Bool) :
    ∀ (l : List Char) (w : Token), w ∈ splitBy p l →
      ∀ c ∈ w, c ∈ l ∧ p c = false
  | [], w, hw, c, hc => by
    simp [splitBy] at hw
    subst hw
    simp at hc
  | a :: as, w, hw, c, hc => by
    rw [splitBy] at hw
    by_cases hpa : p a = true
    · rw [if_pos hpa] at hw
      rcases List.mem_cons.mp hw with rfl | hw'
      · simp at hc
      · have ih := mem_splitBy p as w hw' c hc
        exact ⟨List.mem_cons_of_mem _ ih.1, ih.2⟩
    · rw [if_neg hpa] at hw
      cases hsp : splitBy p as with
      | nil =>
        rw [hsp] at hw
        simp at hw
        subst hw
        rcases List.mem_cons.mp hc with rfl | hc'
        · exact ⟨List.mem_cons_self _ _, by simpa using hpa⟩
        · simp at hc'
      | cons w0 ws =>
        rw [hsp] at hw
        rcases List.mem_cons.mp hw with rfl | hw'
        · rcases List.mem_cons.mp hc with rfl | hc0
          · exact ⟨List.mem_cons_self _ _, by simpa using hpa⟩
          · have hw0 : w0 ∈ splitBy p as := by
              rw [hsp]; exact List.mem_cons_self _ _
            have ih := mem_splitBy p as w0 hw0 c hc0
            exact ⟨List.mem_cons_of_mem _ ih.1, ih.2⟩
        · have hws : w ∈ splitBy p as := by
            rw [hsp]; exact List.mem_cons_of_mem _ hw'
          have ih := mem_splitBy p as w hws c hc
          exact ⟨List.mem_cons_of_mem _ ih.1, ih.2⟩

/-- Every character of every token survives the character replacement
step and is not whitespace, hence lies in the class [a-z0-9-]. -/
lemma tokenize_char_class (s : List Char) :
    ∀ t ∈ tokenize s, ∀ c ∈ t,
      (('a' ≤ c ∧ c ≤ 'z') ∨ ('0' ≤ c ∧ c ≤ '9') ∨ c = '-') := by
  intro t ht c hc
  have hmem := List.mem_filter.mp ht
  have hsp := mem_splitBy isWs (s.map replaceBad) t hmem.1 c hc
  rcases List.mem_map.mp hsp.1 with ⟨c0, _, hrb⟩
  have hws : isWs c = false := hsp.2
  by_cases hk : keepChar c0 = true
  · have hcc : c = c0 := by rw [← hrb, replaceBad, if_pos hk]
    subst hcc
    simp only [keepChar, Bool.or_eq_true, decide_eq_true_eq,
      Bool.and_eq_true] at hk
    rcases hk with ((h1 | h2) | h3) | h4
    · exact Or.inl h1
    · exact Or.inr (Or.inl h2)
    · rw [hws] at h3; exact absurd h3 (by simp)
    · exact Or.inr (Or.inr (by simpa using h4))
  · have hcc : c = ' ' := by
      rw [← hrb, replaceBad, if_neg hk]
    rw [hcc] at hws
    simp [isWs] at hws

/-- C6: the Tokenizer (lowercasing at lines 348-357 followed by
`tokenize` at line 360) produces the token sequence of the lowercased
input: every token is nonempty and drawn from the class [a-z0-9-] (so
all tokens are lowercase), the output is invariant under lowercasing
the input first (uppercase input yields the tokens of its lowercased
form rather than losing those letters), it is a pure function, and on
the concrete mixed-case input "Emirates A380" it yields
["emirates", "a380"]. -/
theorem c6_tokenizer_spec (s : List Char) :
    (∀ t ∈ tokenizerComponent s, t ≠ [] ∧
        ∀ c ∈ t, (('a' ≤ c ∧ c ≤ 'z') ∨ ('0' ≤ c ∧ c ≤ '9') ∨ c = '-')) ∧
    tokenizerComponent s = tokenizerComponent (s.map lowerChar) ∧
    tokenizerComponent (str "Emirates A380") = [str "emirates", str "a380"] := by
  refine ⟨?_, ?_, by decide⟩
  · intro t ht
    refine ⟨by simpa using (List.mem_filter.mp ht).2, ?_⟩
    exact tokenize_char_class (s.map lowerChar) t ht
  · show tokenize (s.map lowerChar) = tokenize ((s.map lowerChar).map lowerChar)
    rw [List.map_map]
    congr 1
    apply List.map_congr_left
    intro c _
    exact (lowerChar_idem c).symm

/-- Witness for C6 at the concrete mixed-case input. -/
theorem c6_witness :
    tokenizerComponent (str "Emirates A380") = [str "emirates", str "a380"] :=
  (c6_tokenizer_spec (str "Emirates A380")).2.2

/-! ## C7: BM25 and query-term overlap -/

/-- Candidate A of the spec's example: tokens "emirates dxb lhr". -/
def candA : Candidate :=
  { flight :=
      { airline := str "Emirates", routeFrom := str "DXB", routeTo := str "LHR"
        aircraft := str "", fclass := str ""
        flightDate := 0, isActive := true }
    prices := [] }

/-- Candidate B of the spec's example: tokens "singapore sin bkk". -/
def candB : Candidate :=
  { flight :=
      { airline := str "Singapore", routeFrom := str "SIN", routeTo := str "BKK"
        aircraft := str "", fclass := str ""
        flightDate := 0, isActive := true }
    prices := [] }

/-- The example corpus: the tokenized documents of A and B as the route
builds them. -/
def exampleDocs : List (List Token) :=
  [candA, candB].map (fun c => tokenize (textOf c))

/-- The example query tokens for free-text query "Emirates LHR". -/
def exampleQ : List Token :=
  tokenize (queryText (some (str "Emirates LHR")) none none none)

/-- A fold step that always skips leaves the accumulator unchanged:
BM25 of a document sharing no token with the query is the empty sum. -/
lemma bm25Doc_of_disjoint (log : ℚ → ℚ) (docTokens : List (List Token))
    (tokens : List Token) :
    ∀ (q : List Token), (∀ t ∈ q, t ∉ tokens) →
      bm25Doc log docTokens q tokens = 0
  | [], _ => rfl
  | t :: ts, h => by
    have hf : termFreq tokens t = 0 :=
      List.count_eq_zero_of_not_mem (h t (List.mem_cons_self t ts))
    have hstep : bm25Doc log docTokens (t :: ts) tokens
        = bm25Doc log docTokens ts tokens := by
      simp only [bm25Doc, List.foldl_cons, hf, Nat.cast_zero,
        eq_self_iff_true, if_true]
    rw [hstep]
    exact bm25Doc_of_disjoint log docTokens tokens ts
      (fun u hu => h u (List.mem_cons_of_mem _ hu))

/-- C7: a candidate whose document shares no token with the query has a
raw BM25 score of exactly 0; on the spec's example (A = "emirates dxb
lhr", B = "singapore sin bkk", query "emirates lhr"), A scores
`2 * log 2 > 0` and B scores 0. The only property of `Math.log` used is
`0 < log 2`. -/
theorem c7_bm25_no_overlap_zero (log : ℚ → ℚ) (hlog2 : 0 < log 2) :
    (∀ (docTokens : List (List Token)) (qTokens tokens : List Token),
        (∀ t ∈ qTokens, t ∉ tokens) →
        bm25Doc log docTokens qTokens tokens = 0) ∧
    0 < (bm25List log exampleDocs exampleQ).getD 0 0 ∧
    (bm25List log exampleDocs exampleQ).getD 1 0 = 0 := by
  have hq : exampleQ = [str "emirates", str "lhr"] := by decide
  have hd : exampleDocs
      = [[str "emirates", str "dxb", str "lhr"],
         [str "singapore", str "sin", str "bkk"]] := by decide
  refine ⟨fun docTokens qTokens tokens h =>
    bm25Doc_of_disjoint log docTokens tokens qTokens h, ?_, ?_⟩
  · rw [hd, hq]
    simp only [bm25List, List.map_cons, List.map_nil, List.getD_cons_zero]
    simp only [bm25Doc, List.foldl_cons, List.foldl_nil]
    have hf1 : termFreq [str "emirates", str "dxb", str "lhr"]
        (str "emirates") = 1 := by decide
    have hf2 : termFreq [str "emirates", str "dxb", str "lhr"]
        (str "lhr") = 1 := by decide
    have hdf1 : df [[str "emirates", str "dxb", str "lhr"],
        [str "singapore", str "sin", str "bkk"]] (str "emirates") = 1 := by decide
    have hdf2 : df [[str "emirates", str "dxb", str "lhr"],
        [str "singapore", str "sin", str "bkk"]] (str "lhr") = 1 := by decide
    have hidf1 : idf log
        [[str "emirates", str "dxb", str "lhr"],
         [str "singapore", str "sin", str "bkk"]] (str "emirates") = log 2 := by
      unfold idf
      exact congrArg log (by rw [hdf1]; norm_num [Nval])
    have hidf2 : idf log
        [[str "emirates", str "dxb", str "lhr"],
         [str "singapore", str "sin", str "bkk"]] (str "lhr") = log 2 := by
      unfold idf
      exact congrArg log (by rw [hdf2]; norm_num [Nval])
    rw [hf1, hf2, hidf1, hidf2]
    norm_num [k1, bParam, docLen, avgdl, Nval]
    linarith [hlog2]
  · rw [hd, hq]
    simp only [bm25List, List.map_cons, List.map_nil, List.getD_cons_succ,
      List.getD_cons_zero]
    exact bm25Doc_of_disjoint log _ _ _ (by decide)

/-- Witness for C7: its hypothesis `0 < log 2` discharged with the
constant-one stand-in for `Math.log`. -/
theorem c7_witness :
    (bm25List (fun _ => (1 : ℚ)) exampleDocs exampleQ).getD 1 0 = 0 :=
  (c7_bm25_no_overlap_zero (fun _ => 1) (by norm_num)).2.2

/-! ## C10: empty query makes every score zero -/

lemma dot_const_zero : ∀ (l : List Token) (dv : List ℚ),
    dot (l.map (fun _ => (0 : ℚ))) dv = 0
  | [], _ => rfl
  | _ :: _, [] => rfl
  | t :: ts, v :: vs => by
    have ih := dot_const_zero ts vs
    simp only [dot, List.map_cons, List.zipWith_cons_cons, List.sum_cons,
      zero_mul, zero_add] at ih ⊢
    exact ih

lemma fuseScores_replicate_zero (alpha : ℚ) :
    ∀ n, fuseScores alpha (List.replicate n 0) (List.replicate n 0)
      = List.replicate n 0
  | 0 => rfl
  | n + 1 => by
    have ih := fuseScores_replicate_zero alpha n
    simp only [fuseScores, List.replicate_succ, List.zipWith_cons_cons,
      mul_zero, add_zero] at ih ⊢
    rw [ih]

/-- With an empty query token list the BM25 score of every document is
the empty sum. -/
lemma bm25List_empty_query (log : ℚ → ℚ) (docTokens : List (List Token)) :
    bm25List log docTokens [] = List.replicate docTokens.length 0 := by
  rw [bm25List]
  calc docTokens.map (bm25Doc log docTokens [])
      = docTokens.map (fun _ => 0) :=
        List.map_congr_left (fun d _ => rfl)
    _ = List.replicate docTokens.length 0 := List.map_const' _ _

/-- With an empty query token list the query vector is all zeros, so
every cosine similarity is `0 / (norm product) = 0`. -/
lemma cosList_empty_query (log sqrt : ℚ → ℚ) (docTokens : List (List Token))
    (terms : List Token) :
    cosList log sqrt docTokens [] terms
      = List.replicate docTokens.length 0 := by
  rw [cosList]
  have hqv : vecOf log docTokens terms [] = terms.map (fun _ => (0 : ℚ)) := by
    simp [vecOf, termFreq]
  calc docTokens.map (fun toks =>
        dot (vecOf log docTokens terms []) (vecOf log docTokens terms toks) /
          (normV sqrt (vecOf log docTokens terms [])
            * normV sqrt (vecOf log docTokens terms toks)))
      = docTokens.map (fun _ => 0) := by
        apply List.map_congr_left
        intro d _
        rw [hqv, dot_const_zero]
        exact zero_div _
    _ = List.replicate docTokens.length 0 := List.map_const' _ _

/-- C10: in the hybrid ranking operation, when no free-text query and
none of the origin/destination/airline filters are supplied, the query
token list is empty, and for every candidate set every raw BM25 score,
every raw cosine score and every fused score is 0. -/
theorem c10_no_query_all_scores_zero (log sqrt : ℚ → ℚ) (alpha : ℚ)
    (cands : List Candidate) :
    qTokensOf none none none none = [] ∧
    (∀ s ∈ bm25List log (docTokensOf cands) (qTokensOf none none none none),
      s = 0) ∧
    (∀ s ∈ cosList log sqrt (docTokensOf cands)
        (qTokensOf none none none none)
        (termsList (qTokensOf none none none none) (docTokensOf cands)),
      s = 0) ∧
    (∀ s ∈ fuseScores (alphaNum alpha)
        (normalize (bm25List log (docTokensOf cands)
          (qTokensOf none none none none)))
        (normalize (cosList log sqrt (docTokensOf cands)
          (qTokensOf none none none none)
          (termsList (qTokensOf none none none none) (docTokensOf cands)))),
      s = 0) := by
  have hq : qTokensOf none none none none = [] := rfl
  rw [hq]
  have hbm := bm25List_empty_query log (docTokensOf cands)
  have hcos := cosList_empty_query log sqrt (docTokensOf cands)
    (termsList [] (docTokensOf cands))
  have hrep : ∀ n, ∀ x ∈ List.replicate n (0 : ℚ), ∀ y ∈ List.replicate n (0 : ℚ), x = y := by
    intro n x hx y hy
    rw [List.eq_of_mem_replicate hx, List.eq_of_mem_replicate hy]
  refine ⟨rfl, ?_, ?_, ?_⟩
  · intro s hs
    rw [hbm] at hs
    exact List.eq_of_mem_replicate hs
  · intro s hs
    rw [hcos] at hs
    exact List.eq_of_mem_replicate hs
  · intro s hs
    rw [hbm, hcos, normalize_of_all_eq _ (hrep _),
      List.length_replicate, fuseScores_replicate_zero] at hs
    exact List.eq_of_mem_replicate hs

/-- Witness for C10: the empty-filter query text tokenizes to nothing. -/
theorem c10_witness : qTokensOf none none none none = [] :=
  (c10_no_query_all_scores_zero (fun _ => 0) (fun _ => 0) 0 []).1

/-! ## C3: relevance sort and tie-breaking -/

/-- A scored candidate with fused score 0 and latest price 300. -/
def tieA : ScoredCandidate :=
  { cand :=
      { flight :=
          { airline := str "Emirates", routeFrom := str "DXB"
            routeTo := str "LHR", aircraft := str "", fclass := str ""
            flightDate := 0, isActive := true }
        prices := [⟨300, 1⟩] }
    bm25 := 0, cosine := 0, hybrid := 0, alpha := 0 }

/-- A scored candidate with the same fused score 0 but latest price 100,
listed after `tieA` in the pre-sort candidate order. -/
def tieB : ScoredCandidate :=
  { cand :=
      { flight :=
          { airline := str "Qatar", routeFrom := str "DOH"
            routeTo := str "JFK", aircraft := str "", fclass := str ""
            flightDate := 0, isActive := true }
        prices := [⟨100, 1⟩] }
    bm25 := 0, cosine := 0, hybrid := 0, alpha := 0 }

/-- C3 counterexample: in the hybrid mode the relevance sort comparator
(line 453) looks only at the fused score, so two candidates with equal
fused scores keep their pre-sort order — here the 300-priced candidate
stays before the 100-priced one, violating the claimed ascending-latest-
value secondary key. -/
theorem c3_counterexample :
    hybridRelevanceSort [tieA, tieB] = [tieA, tieB] ∧
    tieA.hybrid = tieB.hybrid ∧
    latestPrice tieA.cand = some 300 ∧
    latestPrice tieB.cand = some 100 ∧
    ¬ List.Pairwise (fun a b : ScoredCandidate =>
        a.hybrid = b.hybrid →
          mongoValLe (latestPrice a.cand) (latestPrice b.cand) = true)
      (hybridRelevanceSort [tieA, tieB]) := by
  have hsort : hybridRelevanceSort [tieA, tieB] = [tieA, tieB] :=
    List.mergeSort_of_sorted (by decide)
  refine ⟨hsort, rfl, rfl, rfl, ?_⟩
  rw [hsort]
  intro hpair
  have h1 := (List.pairwise_cons.mp hpair).1 tieB (by simp)
  exact absurd (h1 rfl) (by decide)

lemma relevanceLe_trans : ∀ (a b c : ScoredCandidate),
    relevanceLe a b = true → relevanceLe b c = true →
    relevanceLe a c = true := by
  intro a b c hab hbc
  simp only [relevanceLe, decide_eq_true_eq] at hab hbc ⊢
  exact le_trans hbc hab

lemma relevanceLe_total : ∀ (a b : ScoredCandidate),
    (relevanceLe a b || relevanceLe b a) = true := by
  intro a b
  simp only [relevanceLe, Bool.or_eq_true, decide_eq_true_eq]
  exact le_total b.hybrid a.hybrid

lemma mongoValLe_trans : ∀ {a b c : Option ℚ},
    mongoValLe a b = true → mongoValLe b c = true →
    mongoValLe a c = true
  | none, _, _, _, _ => rfl
  | some _, none, _, hab, _ => by simp [mongoValLe] at hab
  | some _, some _, none, _, hbc => by simp [mongoValLe] at hbc
  | some x, some y, some z, hab, hbc => by
    simp only [mongoValLe, decide_eq_true_eq] at hab hbc ⊢
    exact le_trans hab hbc

lemma mongoValLe_total : ∀ (a b : Option ℚ),
    (mongoValLe a b || mongoValLe b a) = true := by
  intro a b
  cases a <;> cases b <;> simp [mongoValLe, le_total]

lemma advRelevanceLe_trans : ∀ (a b c : AdvCandidate),
    advRelevanceLe a b = true → advRelevanceLe b c = true →
    advRelevanceLe a c = true := by
  intro a b c hab hbc
  unfold advRelevanceLe at hab hbc ⊢
  by_cases h1 : a.relevanceScore = b.relevanceScore
  · rw [if_pos h1] at hab
    by_cases h2 : b.relevanceScore = c.relevanceScore
    · rw [if_pos h2] at hbc
      rw [if_pos (h1.trans h2)]
      exact mongoValLe_trans hab hbc
    · rw [if_neg h2] at hbc
      have hc : c.relevanceScore < b.relevanceScore := of_decide_eq_true hbc
      have hca : c.relevanceScore < a.relevanceScore := by rw [h1]; exact hc
      rw [if_neg (ne_of_gt hca)]
      exact decide_eq_true hca
  · rw [if_neg h1] at hab
    have hb : b.relevanceScore < a.relevanceScore := of_decide_eq_true hab
    by_cases h2 : b.relevanceScore = c.relevanceScore
    · rw [if_pos h2] at hbc
      have hca : c.relevanceScore < a.relevanceScore := by rw [← h2]; exact hb
      rw [if_neg (ne_of_gt hca)]
      exact decide_eq_true hca
    · rw [if_neg h2] at hbc
      have hc : c.relevanceScore < b.relevanceScore := of_decide_eq_true hbc
      have hca : c.relevanceScore < a.relevanceScore := lt_trans hc hb
      rw [if_neg (ne_of_gt hca)]
      exact decide_eq_true hca

lemma advRelevanceLe_total : ∀ (a b : AdvCandidate),
    (advRelevanceLe a b || advRelevanceLe b a) = true := by
  intro a b
  unfold advRelevanceLe
  by_cases h : a.relevanceScore = b.relevanceScore
  · rw [if_pos h, if_pos h.symm]
    exact mongoValLe_total _ _
  · rw [if_neg h, if_neg (Ne.symm h)]
    rcases lt_or_gt_of_ne h with hlt | hgt
    · simp [hlt]
    · simp [hgt]

/-- C3 amended: in the hybrid mode the relevance sort orders candidates
by fused score descending only, and equal-score candidates keep their
pre-sort relative order (JS stable sort) — there is no latest-value
secondary key; in the advanced mode the Mongo sort specification
`{relevanceScore: -1, latestPrice: 1}` orders by composite score
descending with ties broken by ascending latest value. Both sorts
permute the candidate set. -/
theorem c3_relevance_sort_orders (l : List ScoredCandidate)
    (ladv : List AdvCandidate) :
    (hybridRelevanceSort l).Pairwise
      (fun a b => b.hybrid ≤ a.hybrid) ∧
    (hybridRelevanceSort l).Perm l ∧
    (∀ a b : ScoredCandidate, [a, b].Sublist l → relevanceLe a b = true →
        [a, b].Sublist (hybridRelevanceSort l)) ∧
    (advancedRelevanceSort ladv).Pairwise (fun a b =>
        b.relevanceScore < a.relevanceScore ∨
          (a.relevanceScore = b.relevanceScore ∧
            mongoValLe (latestPrice a.cand) (latestPrice b.cand) = true)) ∧
    (advancedRelevanceSort ladv).Perm ladv := by
  unfold hybridRelevanceSort advancedRelevanceSort
  refine ⟨?_, List.mergeSort_perm l relevanceLe, ?_, ?_,
    List.mergeSort_perm ladv advRelevanceLe⟩
  · have hs := List.sorted_mergeSort relevanceLe_trans relevanceLe_total l
    exact hs.imp (fun h => by
      simpa [relevanceLe, decide_eq_true_eq] using h)
  · intro a b hsub hle
    exact List.pair_sublist_mergeSort relevanceLe_trans relevanceLe_total
      hle hsub
  · have hs := List.sorted_mergeSort advRelevanceLe_trans advRelevanceLe_total
      ladv
    refine hs.imp ?_
    intro a b h
    unfold advRelevanceLe at h
    by_cases he : a.relevanceScore = b.relevanceScore
    · rw [if_pos he] at h
      exact Or.inr ⟨he, h⟩
    · rw [if_neg he] at h
      exact Or.inl (of_decide_eq_true h)

/-- Witness for C3 (amended): the stability clause applied to the
concrete tied pair. -/
theorem c3_witness :
    [tieA, tieB].Sublist (hybridRelevanceSort [tieA, tieB]) :=
  (c3_relevance_sort_orders [tieA, tieB] []).2.2.1 tieA tieB
    (List.Sublist.refl _) (by decide)

/-! ## C4: out-of-range α is clamped, not rejected -/

/-- C4 counterexample: a request with α = 2 (outside [0,1]) is not
rejected: the handler returns a normal `ok` response, and scoring
proceeds with the clamped substitute α = 1. -/
theorem c4_counterexample :
    (hybridRank (fun _ => 0) (fun _ => 0) none none none none none none
      (str "relevance") 20 1 2 []).isOk = true ∧
    alphaNum 2 = 1 := by
  refine ⟨rfl, ?_⟩
  rw [alphaNum]
  norm_num

/-- C4 amended: for every request whose α lies outside [0,1] the hybrid
handler still succeeds — there is no `InvalidFilter` rejection anywhere
in the route — and scoring proceeds with α clamped into [0,1]
(`Math.max(0, Math.min(1, α))`, line 345): values above 1 become 1,
values below 0 become 0. -/
theorem c4_alpha_clamped_not_rejected (log sqrt : ℚ → ℚ)
    (query from_ to_ airline : Option (List Char))
    (minPrice maxPrice : Option ℚ) (sortBy : List Char)
    (limitN pageN : ℕ) (alpha : ℚ) (cands : List Candidate)
    (h : alpha < 0 ∨ 1 < alpha) :
    (hybridRank log sqrt query from_ to_ airline minPrice maxPrice sortBy
      limitN pageN alpha cands).isOk = true ∧
    (1 < alpha → alphaNum alpha = 1) ∧
    (alpha < 0 → alphaNum alpha = 0) ∧
    0 ≤ alphaNum alpha ∧ alphaNum alpha ≤ 1 := by
  refine ⟨rfl, ?_, ?_, ?_, ?_⟩
  · intro h1
    rw [alphaNum, min_eq_left h1.le]
    norm_num
  · intro h2
    rw [alphaNum, min_eq_right (le_of_lt (lt_of_lt_of_le h2 (by norm_num)))]
    exact max_eq_left h2.le
  · exact le_max_left _ _
  · exact max_le (by norm_num) (min_le_left _ _)

/-- Witness for C4 (amended) at the concrete request with α = 2. -/
theorem c4_witness :
    (hybridRank (fun _ => 1) (fun _ => 1) none none none none none none
      (str "relevance") 20 1 2 []).isOk = true :=
  (c4_alpha_clamped_not_rejected (fun _ => 1) (fun _ => 1) none none none
    none none none (str "relevance") 20 1 2 [] (Or.inr (by norm_num))).1

end FlightTracker
